import Mathlib

/-!
Verification of the Targetify repository: a shallow embedding of
`src/components/TargetTracker.tsx` (the target list with its localStorage
persistence) and `InstallPrompt` (the PWA install banner), together with
proofs of the specified properties.

Conventions of the embedding:
* JavaScript `Date` values in memory are milliseconds since the epoch
  (`Nat` for dates produced by `new Date()` at a clock reading; a separate
  `JSDate` type covers the possibly invalid dates produced while loading).
* `Date.now().toString()` and the platform pair
  `Date.prototype.toISOString` / `new Date(string)` are modelled by a
  concrete decimal encoding `natDecStr` with parser `decStrParse`; the
  property of the real platform pair that the program relies on — parsing
  the produced string restores the original timestamp, and distinct
  timestamps produce distinct strings — is proved below
  (`decStrParse_natDecStr`, `natDecStr_injective`).
* The toast sink is modelled by returning the list of toasts an operation
  emits; React's save-`useEffect` (persist) is modelled by a flag that
  records whether `setTargets` was invoked by the operation.
-/

namespace Targetify

/-! ### Decimal strings: the model of `Number.prototype.toString` and of the
serialized-timestamp round trip -/

/-- Little-endian decimal digits of `n`, with explicit fuel so that the
recursion is structural (the fuel `n` itself always suffices). -/
def toDecRevAux : Nat → Nat → List Nat
  | _, 0 => []
  | 0, _ + 1 => []
  | fuel + 1, n + 1 => (n + 1) % 10 :: toDecRevAux fuel ((n + 1) / 10)

/-- The character for a decimal digit, `'0'`–`'9'`. -/
def decChar (d : Nat) : Char := Char.ofNat (48 + d)

/-- The decimal string of a natural number: the model of JavaScript
`n.toString()` (used for ids) and, composed with the date parser below, of
the ISO-timestamp serialization of `Date` values. -/
def natDecStr (n : Nat) : String :=
  if n = 0 then "0" else ⟨((toDecRevAux n n).reverse.map decChar)⟩

/-- Reads one decimal digit character. -/
def decDigit? (c : Char) : Option Nat :=
  if 48 ≤ c.toNat ∧ c.toNat ≤ 57 then some (c.toNat - 48) else none

/-- Accumulating decimal parser over a character list. -/
def parseDecAux : List Char → Nat → Option Nat
  | [], acc => some acc
  | c :: cs, acc =>
    match decDigit? c with
    | some d => parseDecAux cs (10 * acc + d)
    | none => none

/-- Parses a decimal string; the model of the platform restoring a
serialized timestamp (`new Date(string)` on a string the program wrote). -/
def decStrParse (s : String) : Option Nat :=
  match s.data with
  | [] => none
  | c :: cs => parseDecAux (c :: cs) 0

/-- The value of a little-endian digit list. -/
def valRev : List Nat → Nat
  | [] => 0
  | d :: ds => d + 10 * valRev ds

/-- The model of JavaScript `String.prototype.trim`: strips leading and
trailing whitespace characters. -/
def jsTrim (s : String) : String :=
  ⟨((s.data.dropWhile Char.isWhitespace).reverse.dropWhile
    Char.isWhitespace).reverse⟩

/-! ### Data model (`interface Target`, toasts, component state) -/

/-- Toast variants used by the component (`variant: "destructive"` marks
error notifications; the default variant marks informational ones). -/
inductive Variant
  | default
  | destructive
deriving DecidableEq, Repr

/-- A toast notification `{title, description, variant}` as passed to
`toast(...)`. -/
structure Toast where
  title : String
  description : String
  variant : Variant
deriving DecidableEq, Repr

/-- The `interface Target` from `TargetTracker.tsx`. `createdAt` is a `Date`
produced by `new Date()` at creation, held as milliseconds since epoch. -/
structure Target where
  id : String
  text : String
  completed : Bool
  createdAt : Nat
deriving DecidableEq, Repr

/-- The component state: the `targets` array and the pending input value
`newTarget`. -/
structure TrackerState where
  targets : List Target
  newTarget : String
deriving DecidableEq, Repr

/-- The initial state: `useState<Target[]>([])`, `useState('')`. -/
def initState : TrackerState := { targets := [], newTarget := "" }

/-- Result of running one event handler: the state afterwards, the toasts
emitted, and whether `setTargets` was invoked (which is what triggers the
save-`useEffect`, i.e. `persist`). -/
structure OpResult where
  state : TrackerState
  toasts : List Toast
  persisted : Bool
deriving DecidableEq, Repr

/-- The toast of the empty-input validation failure in `addTarget`. -/
def emptyTargetToast : Toast :=
  { title := "Empty Target"
    description := "Please enter a target before adding."
    variant := .destructive }

/-- The success toast of `addTarget`. -/
def addedToast (text : String) : Toast :=
  { title := "Target Added!"
    description := "\"" ++ text ++ "\" has been added to your list."
    variant := .default }

/-- The toast of `deleteTarget` (emitted whether or not the id was found;
on a missing id the template interpolates JavaScript `undefined`). -/
def removedToast (text : String) : Toast :=
  { title := "Target Removed"
    description := "\"" ++ text ++ "\" has been deleted."
    variant := .destructive }

/-- The informational toast of `clearCompleted` when nothing is completed. -/
def nothingToClearToast : Toast :=
  { title := "Nothing to Clear"
    description := "You have no completed targets to clear."
    variant := .default }

/-- The toast of `clearCompleted` reporting the removed count. -/
def clearedToast (k : Nat) : Toast :=
  { title := "Completed Targets Cleared"
    description := "Removed " ++ natDecStr k ++ " completed targets."
    variant := .default }

/-! ### Operations (the event handlers of `TargetTracker`) -/

/-- The handler `addTarget`: validates `newTarget.trim()` is non-empty (the JavaScript
guard `!newTarget.trim()`); on failure emits the destructive toast and
returns without touching state. Otherwise builds the new target with
`id = Date.now().toString()`, `completed = false`, `createdAt = new Date()`
(both clock reads modelled by the single parameter `now`), prepends it,
clears the input, and emits the success toast. -/
def addTarget (now : Nat) (s : TrackerState) : OpResult :=
  if jsTrim s.newTarget = "" then
    { state := s, toasts := [emptyTargetToast], persisted := false }
  else
    let target : Target :=
      { id := natDecStr now
        text := jsTrim s.newTarget
        completed := false
        createdAt := now }
    { state := { targets := target :: s.targets, newTarget := "" }
      toasts := [addedToast target.text]
      persisted := true }

/-- The handler `toggleTarget(id)`: maps over the array flipping `completed` on each
target whose id matches, leaving every other target untouched. -/
def toggleTarget (id : String) (s : TrackerState) : OpResult :=
  { state :=
      { s with
        targets := s.targets.map fun t =>
          if t.id = id then { t with completed := !t.completed } else t }
    toasts := []
    persisted := true }

/-- The handler `deleteTarget(id)`: looks up the text of the first matching target
(`targets.find(...)?.text`, the string `"undefined"` when absent, as the
template literal renders it), filters out every matching target, and emits
the removal toast. -/
def deleteTarget (id : String) (s : TrackerState) : OpResult :=
  let targetText :=
    match s.targets.find? (fun t => t.id = id) with
    | some t => t.text
    | none => "undefined"
  { state := { s with targets := s.targets.filter fun t => t.id ≠ id }
    toasts := [removedToast targetText]
    persisted := true }

/-- The handler `clearCompleted()`: counts the completed targets; when zero, emits the
informational toast and returns without calling `setTargets`; otherwise
filters the completed ones out and emits the count toast. -/
def clearCompleted (s : TrackerState) : OpResult :=
  let completedCount := (s.targets.filter fun t => t.completed).length
  if completedCount = 0 then
    { state := s, toasts := [nothingToClearToast], persisted := false }
  else
    { state := { s with targets := s.targets.filter fun t => !t.completed }
      toasts := [clearedToast completedCount]
      persisted := true }

/-! ### Operation sequences (for the reachable-state invariant) -/

/-- One user interaction: `add now text` stands for typing `text` into the
input and clicking Add while the clock reads `now`; the others are the
corresponding button clicks. -/
inductive Op
  | add (now : Nat) (text : String)
  | toggle (id : String)
  | delete (id : String)
  | clear
deriving DecidableEq, Repr

/-- Applies one interaction to the state (toasts and the persist flag are
irrelevant to reachability). -/
def applyOp (s : TrackerState) : Op → TrackerState
  | .add now text => (addTarget now { s with newTarget := text }).state
  | .toggle id => (toggleTarget id s).state
  | .delete id => (deleteTarget id s).state
  | .clear => (clearCompleted s).state

/-- Runs a sequence of interactions from a state. -/
def runOps (s : TrackerState) : List Op → TrackerState
  | [] => s
  | op :: ops => runOps (applyOp s op) ops

/-- The clock readings of the add interactions in a sequence. -/
def addNows : List Op → List Nat
  | [] => []
  | .add now _ :: ops => now :: addNows ops
  | _ :: ops => addNows ops

/-! ### Persistence (`localStorage` + `JSON`): the load and save effects -/

/-- A JavaScript date object: either a valid instant (milliseconds) or the
`Invalid Date` produced by failed parses. -/
inductive JSDate
  | valid (ms : Int)
  | invalid

/-- JavaScript runtime values as far as the load path manipulates them:
JSON values (null, booleans, numbers, strings, arrays, objects with ordered
fields) plus `undefined` and date objects, which appear after the
`createdAt` conversion. -/
inductive JS
  | null
  | undefined
  | bool (b : Bool)
  | num (n : Int)
  | str (s : String)
  | date (d : JSDate)
  | arr (xs : List JS)
  | obj (fields : List (String × JS))

/-- What a stored `localStorage` string is to `JSON.parse`: either a string
it rejects (throwing a `SyntaxError`) or a string parsing to a value. -/
inductive Stored
  | corrupt
  | parsed (j : JS)

/-- Property read `t.createdAt` on a non-null value: objects yield the
value of the field (last occurrence wins, as in JavaScript), everything
else yields `undefined`. -/
def getField (t : JS) (k : String) : JS :=
  match t with
  | .obj fields =>
    (fields.foldl (fun acc p => if p.1 = k then some p.2 else acc) none).getD .undefined
  | _ => .undefined

/-- The object literal `{...t, createdAt: v}`: when the spread already laid
down the key, the later entry overwrites the value in place; otherwise the
key is appended. -/
def setField (fields : List (String × JS)) (k : String) (v : JS) :
    List (String × JS) :=
  if fields.any (fun p => p.1 = k) then
    fields.map fun p => if p.1 = k then (p.1, v) else p
  else
    fields ++ [(k, v)]

/-- The own enumerable properties contributed by the spread `{...t}`:
an object's fields, a string's or an array's indexed elements, and nothing
for the primitives. -/
def spreadFields (t : JS) : List (String × JS) :=
  match t with
  | .obj fields => fields
  | .str s => (s.data.enum.map fun p => (natDecStr p.1, JS.str (String.singleton p.2)))
  | .arr xs => xs.enum.map fun p => (natDecStr p.1, p.2)
  | _ => []

/-- The constructor call `new Date(x)` for the values `x` that `t.createdAt` can produce here:
`undefined` and unparsable strings give `Invalid Date`; `null` and booleans
coerce to numbers; numbers are milliseconds; strings go through the date
parser (modelled by `decStrParse`, the inverse of the serializer); a date
is copied; arrays and objects stringify to unparsable text. -/
def jsNewDate (x : JS) : JSDate :=
  match x with
  | .undefined => .invalid
  | .null => .valid 0
  | .bool b => .valid (if b then 1 else 0)
  | .num n => .valid n
  | .str s =>
    match decStrParse s with
    | some n => .valid (n : Int)
    | none => .invalid
  | .date d => d
  | .arr _ => .invalid
  | .obj _ => .invalid

/-- One element of the load conversion,
`(t: any) => ({...t, createdAt: new Date(t.createdAt)})`: reading
`t.createdAt` on `null` (or `undefined`) throws a `TypeError`, modelled by
`none`; otherwise the spread object with `createdAt` replaced by the date. -/
def loadMapElem (t : JS) : Option JS :=
  match t with
  | .null => none
  | .undefined => none
  | _ =>
    some (.obj (setField (spreadFields t) "createdAt"
      (.date (jsNewDate (getField t "createdAt")))))

/-- The call `parsed.map(...)` with exception propagation: a throwing element aborts
the whole map, discarding the partial result. -/
def mapLoad : List JS → Option (List JS)
  | [] => some []
  | t :: ts =>
    match loadMapElem t, mapLoad ts with
    | some y, some ys => some (y :: ys)
    | _, _ => none

/-- The toast of the load `catch` block. -/
def loadErrorToast : Toast :=
  { title := "Error"
    description := "Could not load your saved targets."
    variant := .destructive }

/-- The load `useEffect`: a missing key does nothing; otherwise
`JSON.parse` and the element conversion run inside `try`, and any throw —
a corrupt string, calling `.map` on a non-array, or a `TypeError` inside
the conversion — lands in `catch`, which emits one error toast and leaves
the initial empty `targets` in place. Returns the collection the component
ends up with and the toasts emitted. -/
def loadFromStorage (stored : Option Stored) : List JS × List Toast :=
  match stored with
  | none => ([], [])
  | some .corrupt => ([], [loadErrorToast])
  | some (.parsed j) =>
    match j with
    | .arr xs =>
      match mapLoad xs with
      | some ys => (ys, [])
      | none => ([], [loadErrorToast])
    | _ => ([], [loadErrorToast])

/-- The `JSON.stringify` image of one target: field order is the construction order
of the object; the `Date` serializes to its timestamp string (the model of
`toISOString`). -/
def targetToJson (t : Target) : JS :=
  .obj [("id", .str t.id), ("text", .str t.text),
    ("completed", .bool t.completed), ("createdAt", .str (natDecStr t.createdAt))]

/-- The save `useEffect`'s `JSON.stringify(targets)`: the parsed form of
the string written to `localStorage.setItem('dailyTargets', ...)`. -/
def persistJson (targets : List Target) : JS :=
  .arr (targets.map targetToJson)

/-- A target as the in-memory object the load path reconstructs: identical
fields, with `createdAt` a native (valid) date rather than a string. -/
def targetLoaded (t : Target) : JS :=
  .obj [("id", .str t.id), ("text", .str t.text),
    ("completed", .bool t.completed), ("createdAt", .date (.valid t.createdAt))]

/-! ### InstallPrompt (the PWA install banner component) -/

/-- The resolution of `userChoice`: `{outcome: "accepted" | "dismissed"}`. -/
inductive Outcome
  | accepted
  | dismissed
deriving DecidableEq, Repr

/-- The component state of `InstallPrompt`, generic in the type `H` of the
opaque `BeforeInstallPromptEvent` handle: the retained handle
(`installPrompt`, `null` when absent) and the banner flag (`showPrompt`). -/
structure InstallState (H : Type) where
  installPrompt : Option H
  showPrompt : Bool
deriving DecidableEq, Repr

/-- The initial state: `useState(null)`, `useState(false)`. -/
def installInit (H : Type) : InstallState H :=
  { installPrompt := none, showPrompt := false }

/-- The handler `handleBeforeInstallPrompt(e)`: calls `e.preventDefault()`, retains the
handle and shows the banner. -/
def handleBeforeInstallPrompt {H : Type} (e : H) (_ : InstallState H) :
    InstallState H :=
  { installPrompt := some e, showPrompt := true }

/-- The handler `handleInstall()` with the outcome the platform resolves: when no
handle is retained it returns at once without invoking `prompt()`
(second component `false`); otherwise `prompt()` runs (second component
`true`) and only the `"accepted"` outcome clears the state — on
`"dismissed"` neither `setShowPrompt` nor `setInstallPrompt` is called. -/
def handleInstall {H : Type} (outcome : Outcome) (s : InstallState H) :
    InstallState H × Bool :=
  match s.installPrompt with
  | none => (s, false)
  | some _ =>
    match outcome with
    | .accepted => ({ installPrompt := none, showPrompt := false }, true)
    | .dismissed => (s, true)

/-- The handler `handleDismiss()`: hides the banner, leaving the handle retained. -/
def handleDismiss {H : Type} (s : InstallState H) : InstallState H :=
  { s with showPrompt := false }

/-- The render guard `if (!showPrompt || !installPrompt) return null`:
the banner is rendered exactly when the flag is set and a handle is
retained. -/
def bannerRendered {H : Type} (s : InstallState H) : Bool :=
  s.showPrompt && s.installPrompt.isSome

/-! ### Concrete sample states used to instantiate the theorems -/

/-- A state holding one completed target. -/
def oneCompletedState : TrackerState :=
  { targets := [{ id := "1", text := "a", completed := true, createdAt := 0 }]
    newTarget := "" }

/-- A state holding two targets with distinct ids, the second completed. -/
def twoTargetState : TrackerState :=
  { targets :=
      [{ id := "1", text := "a", completed := false, createdAt := 0 },
       { id := "2", text := "b", completed := true, createdAt := 1 }]
    newTarget := "" }

/-! ## Lemmas: the decimal encoding -/

theorem valRev_toDecRevAux (fuel n : Nat) (h : n ≤ fuel) :
    valRev (toDecRevAux fuel n) = n := by
  induction fuel generalizing n with
  | zero =>
    interval_cases n
    rfl
  | succ fuel ih =>
    match n with
    | 0 => rfl
    | n + 1 =>
      have hdiv : (n + 1) / 10 ≤ fuel := by
        have := Nat.div_lt_self (Nat.succ_pos n) (by omega : 1 < 10)
        omega
      simp only [toDecRevAux, valRev, ih _ hdiv]
      omega

theorem toDecRevAux_lt (fuel n : Nat) : ∀ d ∈ toDecRevAux fuel n, d < 10 := by
  induction fuel generalizing n with
  | zero =>
    match n with
    | 0 => simp [toDecRevAux]
    | n + 1 => simp [toDecRevAux]
  | succ fuel ih =>
    match n with
    | 0 => simp [toDecRevAux]
    | n + 1 =>
      simp only [toDecRevAux, List.mem_cons]
      rintro d (rfl | hd)
      · exact Nat.mod_lt _ (by omega)
      · exact ih _ d hd

theorem decDigit?_decChar (d : Nat) (h : d < 10) : decDigit? (decChar d) = some d := by
  interval_cases d <;> rfl

theorem parseDecAux_map_decChar (ds : List Nat) (hds : ∀ d ∈ ds, d < 10) (acc : Nat) :
    parseDecAux (ds.map decChar) acc = some (ds.foldl (fun a d => 10 * a + d) acc) := by
  induction ds generalizing acc with
  | nil => rfl
  | cons d ds ih =>
    have hd : d < 10 := hds d (List.mem_cons_self d ds)
    simp only [List.map_cons, parseDecAux, decDigit?_decChar d hd, List.foldl_cons]
    exact ih (fun x hx => hds x (List.mem_cons_of_mem d hx)) (10 * acc + d)

theorem foldl_reverse_eq_valRev (ds : List Nat) :
    ds.reverse.foldl (fun a d => 10 * a + d) 0 = valRev ds := by
  induction ds with
  | nil => rfl
  | cons d ds ih =>
    rw [List.reverse_cons, List.foldl_append, ih]
    simp only [List.foldl_cons, List.foldl_nil, valRev]
    omega

/-- The serialized-timestamp round trip: parsing the decimal string of `n`
yields `n` back. -/
theorem decStrParse_natDecStr (n : Nat) : decStrParse (natDecStr n) = some n := by
  by_cases hn : n = 0
  · subst hn
    rfl
  · have hne : toDecRevAux n n ≠ [] := by
      match n, hn with
      | n + 1, _ => simp [toDecRevAux]
    unfold natDecStr
    rw [if_neg hn]
    have hrev : ((toDecRevAux n n).reverse.map decChar) ≠ [] := by
      simp [hne]
    unfold decStrParse
    match hmr : (toDecRevAux n n).reverse.map decChar with
    | [] => exact absurd hmr hrev
    | c :: cs =>
      simp only
      rw [← hmr,
        parseDecAux_map_decChar _ (fun d hd => toDecRevAux_lt n n d (by
          simpa using hd)) 0]
      rw [foldl_reverse_eq_valRev, valRev_toDecRevAux n n (Nat.le_refl n)]

/-- Distinct numbers have distinct decimal strings: the uniqueness property
of `Date.now().toString()` identifiers for distinct clock readings. -/
theorem natDecStr_injective : Function.Injective natDecStr := by
  intro a b hab
  have := decStrParse_natDecStr a
  rw [hab, decStrParse_natDecStr b] at this
  exact (Option.some_injective _ this).symm

/-! ## Claim C2: adding a valid target -/

/-- C2. For every state whose pending input is non-empty after trimming,
`addTarget` grows the collection by exactly one, and the new target sits
first with `completed = false`, text the trimmed input and `createdAt` the
current clock reading, while all previously existing items keep their
relative order (they are exactly the tail). -/
theorem addTarget_valid_spec (now : Nat) (s : TrackerState)
    (h : jsTrim s.newTarget ≠ "") :
    (addTarget now s).state.targets.length = s.targets.length + 1 ∧
    (addTarget now s).state.targets =
      { id := natDecStr now, text := jsTrim s.newTarget, completed := false,
        createdAt := now } :: s.targets := by
  simp [addTarget, h]

/-- Witness for C2 at a concrete input. -/
theorem addTarget_valid_spec_witness :
    (addTarget 7 { targets := [], newTarget := " run " }).state.targets.length =
      ([] : List Target).length + 1 ∧
    (addTarget 7 { targets := [], newTarget := " run " }).state.targets =
      [{ id := natDecStr 7, text := jsTrim " run ", completed := false,
         createdAt := 7 }] :=
  addTarget_valid_spec 7 { targets := [], newTarget := " run " } (by decide)

/-! ## Claim C3: adding an empty or whitespace-only input -/

/-- C3. When the pending input trims to the empty string, `addTarget`
returns the state unchanged (in particular the pending input value is
untouched), emits exactly the validation toast, and that toast carries the
destructive variant; `setTargets` is not invoked. -/
theorem addTarget_invalid_spec (now : Nat) (s : TrackerState)
    (h : jsTrim s.newTarget = "") :
    addTarget now s =
      { state := s, toasts := [emptyTargetToast], persisted := false } ∧
    emptyTargetToast.variant = .destructive ∧
    (addTarget now s).state.newTarget = s.newTarget := by
  refine ⟨?_, rfl, ?_⟩ <;> simp [addTarget, h]

/-- Witness for C3 at a concrete input. -/
theorem addTarget_invalid_spec_witness :
    addTarget 3 { targets := [], newTarget := "   " } =
      { state := { targets := [], newTarget := "   " },
        toasts := [emptyTargetToast], persisted := false } ∧
    emptyTargetToast.variant = .destructive ∧
    (addTarget 3 { targets := [], newTarget := "   " }).state.newTarget = "   " :=
  addTarget_invalid_spec 3 { targets := [], newTarget := "   " } (by decide)

/-! ## Claim C7: clearing completed targets -/

theorem length_filter_not (p : Target → Bool) (l : List Target) :
    (l.filter fun t => !p t).length = l.length - (l.filter p).length := by
  induction l with
  | nil => rfl
  | cons t l ih =>
    have hle := List.length_filter_le p l
    by_cases h : p t
    · simp [List.filter_cons, h, ih]
    · simp [List.filter_cons, h, ih]
      all_goals omega

/-- C7. When no target is completed, `clearCompleted` leaves the state
unchanged, does not invoke `setTargets` (so no persist is triggered), and
emits the informational toast. When `k > 0` targets are completed it
removes exactly those `k` — the result keeps precisely the incomplete
targets in their relative order, has zero completed targets, and is `k`
shorter — and emits the toast reporting the count `k`. -/
theorem clearCompleted_spec (s : TrackerState) :
    ((s.targets.filter fun t => t.completed).length = 0 →
      clearCompleted s =
        { state := s, toasts := [nothingToClearToast], persisted := false } ∧
      nothingToClearToast.variant = .default) ∧
    (∀ k, (s.targets.filter fun t => t.completed).length = k → 0 < k →
      (clearCompleted s).state.targets =
        (s.targets.filter fun t => !t.completed) ∧
      ((clearCompleted s).state.targets.filter fun t => t.completed) = [] ∧
      (clearCompleted s).state.targets.length = s.targets.length - k ∧
      (clearCompleted s).toasts = [clearedToast k] ∧
      (clearCompleted s).persisted = true) := by
  constructor
  · intro h0
    exact ⟨by simp [clearCompleted, h0], rfl⟩
  · intro k hk hkpos
    have hkne : ¬ k = 0 := by omega
    have hcc : clearCompleted s =
        { state := { targets := s.targets.filter fun t => !t.completed,
                     newTarget := s.newTarget },
          toasts := [clearedToast k], persisted := true } := by
      simp [clearCompleted, hk, hkne]
    rw [hcc]
    refine ⟨rfl, ?_, ?_, rfl, rfl⟩
    · rw [List.filter_filter]
      apply List.filter_eq_nil_iff.mpr
      intro t _
      simp
    · have := length_filter_not (fun t => t.completed) s.targets
      simp only
      rw [this, hk]

/-- Witness for C7 at a concrete input, exercising the completed branch. -/
theorem clearCompleted_spec_witness :
    (clearCompleted oneCompletedState).state.targets =
      (oneCompletedState.targets.filter fun t => !t.completed) ∧
    ((clearCompleted oneCompletedState).state.targets.filter
      fun t => t.completed) = [] ∧
    (clearCompleted oneCompletedState).state.targets.length =
      oneCompletedState.targets.length - 1 ∧
    (clearCompleted oneCompletedState).toasts = [clearedToast 1] ∧
    (clearCompleted oneCompletedState).persisted = true :=
  (clearCompleted_spec oneCompletedState).2 1 (by decide) (by decide)

/-! ## Claim C9: resolving the platform install prompt -/

/-- C9. From a state with a retained handle and a visible banner, clicking
Install and resolving the platform choice behaves asymmetrically: the
`accepted` outcome clears the retained handle and hides the banner (the
render guard then fails), while the `dismissed` outcome changes nothing —
the handle stays retained and the banner stays rendered. -/
theorem handleInstall_outcome_spec {H : Type} (s : InstallState H) (e : H)
    (hp : s.installPrompt = some e) (hs : s.showPrompt = true) :
    (handleInstall .accepted s =
        ({ installPrompt := none, showPrompt := false }, true) ∧
      bannerRendered (handleInstall .accepted s).1 = false) ∧
    (handleInstall .dismissed s = (s, true) ∧
      (handleInstall .dismissed s).1.installPrompt = some e ∧
      bannerRendered (handleInstall .dismissed s).1 = true) := by
  refine ⟨⟨?_, ?_⟩, ?_, ?_, ?_⟩ <;>
    simp [handleInstall, bannerRendered, hp, hs]

/-- Witness for C9 at a concrete state (handle type `Nat`). -/
theorem handleInstall_outcome_spec_witness :
    (handleInstall .accepted
        ({ installPrompt := some 0, showPrompt := true } : InstallState Nat) =
        ({ installPrompt := none, showPrompt := false }, true) ∧
      bannerRendered (handleInstall .accepted
        ({ installPrompt := some 0, showPrompt := true } : InstallState Nat)).1 =
        false) ∧
    (handleInstall .dismissed
        ({ installPrompt := some 0, showPrompt := true } : InstallState Nat) =
        ({ installPrompt := some 0, showPrompt := true }, true) ∧
      (handleInstall .dismissed
        ({ installPrompt := some 0, showPrompt := true } : InstallState Nat)).1.installPrompt =
        some 0 ∧
      bannerRendered (handleInstall .dismissed
        ({ installPrompt := some 0, showPrompt := true } : InstallState Nat)).1 =
        true) :=
  handleInstall_outcome_spec
    ({ installPrompt := some 0, showPrompt := true } : InstallState Nat) 0 rfl rfl

/-! ## Claim C10: the render guard and the no-handle no-op -/

/-- C10. The banner is rendered exactly when the show flag is set and a
handle is retained and not yet cleared; and with no retained handle,
clicking Install is a no-op — the state is unchanged and the platform
`prompt()` is never invoked (second component `false`). -/
theorem bannerRendered_guard_spec {H : Type} (s : InstallState H)
    (outcome : Outcome) :
    (bannerRendered s = true ↔
      s.showPrompt = true ∧ s.installPrompt ≠ none) ∧
    (s.installPrompt = none → handleInstall outcome s = (s, false)) := by
  constructor
  · cases hp : s.installPrompt <;> simp [bannerRendered, hp]
  · intro hp
    simp [handleInstall, hp]

/-! ## Claim C1: the persistence round trip -/

theorem loadMapElem_targetToJson (t : Target) :
    loadMapElem (targetToJson t) = some (targetLoaded t) := by
  have hdate : jsNewDate (.str (natDecStr t.createdAt)) =
      .valid (t.createdAt : Int) := by
    simp only [jsNewDate]
    rw [decStrParse_natDecStr]
  simp [loadMapElem, targetToJson, targetLoaded, getField, setField,
    spreadFields, hdate]

theorem mapLoad_targetToJson (C : List Target) :
    mapLoad (C.map targetToJson) = some (C.map targetLoaded) := by
  induction C with
  | nil => rfl
  | cons t C ih =>
    simp only [List.map_cons, mapLoad, loadMapElem_targetToJson, ih]

/-- C1. Persisting any collection (the save effect's
`JSON.stringify(targets)` written under the storage key) and loading it
back yields the same collection, the sole difference being that
`createdAt` is a string on disk (`targetToJson`) and a native timestamp
in memory (`targetLoaded`); the load emits no toast. -/
theorem load_persist_roundtrip (C : List Target) :
    loadFromStorage (some (.parsed (persistJson C))) = (C.map targetLoaded, []) := by
  simp only [loadFromStorage, persistJson, mapLoad_targetToJson]

/-! ## Claim C4: loading malformed stored data -/

/-- Counterexample to C4 as stated: the stored string `"[0]"` parses but
is not an array of Target records, yet the load ends with a non-empty
collection (one garbage object whose `createdAt` is an invalid date) and
no `PersistenceError` notification — the code performs no shape
validation. -/
theorem load_shape_invalid_counterexample :
    (loadFromStorage (some (.parsed (.arr [.num 0])))).1 =
      [.obj [("createdAt", .date .invalid)]] ∧
    (loadFromStorage (some (.parsed (.arr [.num 0])))).1 ≠ [] ∧
    (loadFromStorage (some (.parsed (.arr [.num 0])))).2 = [] := by
  refine ⟨rfl, ?_, rfl⟩
  rw [show (loadFromStorage (some (.parsed (.arr [.num 0])))).1 =
    [.obj [("createdAt", .date .invalid)]] from rfl]
  exact List.cons_ne_nil _ _

theorem mapLoad_eq_none_of_null_mem (xs : List JS) (h : JS.null ∈ xs) :
    mapLoad xs = none := by
  induction xs with
  | nil => cases h
  | cons t ts ih =>
    rcases List.mem_cons.mp h with rfl | hmem
    · rfl
    · unfold mapLoad
      rw [ih hmem]
      cases loadMapElem t <;> rfl

/-- C4 (amended). For every stored value that fails to parse as JSON, or
parses to a non-array (so that `.map` throws), or parses to an array with
a `null` element (so that reading `.createdAt` throws), the load never
throws uncaught: the `catch` block surfaces exactly one destructive
(`PersistenceError`) notification and the in-memory collection stays
empty. -/
theorem load_malformed_spec (b : Stored)
    (h : b = .corrupt ∨
      (∃ j, b = .parsed j ∧ ∀ xs, j ≠ JS.arr xs) ∨
      (∃ xs, b = .parsed (.arr xs) ∧ JS.null ∈ xs)) :
    loadFromStorage (some b) = ([], [loadErrorToast]) ∧
    loadErrorToast.variant = .destructive := by
  refine ⟨?_, rfl⟩
  rcases h with rfl | ⟨j, rfl, hj⟩ | ⟨xs, rfl, hmem⟩
  · rfl
  · cases j with
    | arr xs => exact absurd rfl (hj xs)
    | null => rfl
    | undefined => rfl
    | bool b => rfl
    | num n => rfl
    | str s => rfl
    | date d => rfl
    | obj fields => rfl
  · simp only [loadFromStorage, mapLoad_eq_none_of_null_mem xs hmem]

/-- Witness for C4 (amended) at a concrete input: a corrupt stored
string. -/
theorem load_malformed_spec_witness :
    loadFromStorage (some .corrupt) = ([], [loadErrorToast]) ∧
    loadErrorToast.variant = .destructive :=
  load_malformed_spec .corrupt (Or.inl rfl)

/-- Witness for C10 at a concrete state (handle type `Nat`). -/
theorem bannerRendered_guard_spec_witness :
    (bannerRendered ({ installPrompt := none, showPrompt := true } : InstallState Nat) = true ↔
      (({ installPrompt := none, showPrompt := true } : InstallState Nat).showPrompt = true ∧
        ({ installPrompt := none, showPrompt := true } : InstallState Nat).installPrompt ≠ none)) ∧
    (({ installPrompt := none, showPrompt := true } : InstallState Nat).installPrompt = none →
      handleInstall .accepted ({ installPrompt := none, showPrompt := true } : InstallState Nat) =
        ({ installPrompt := none, showPrompt := true }, false)) :=
  bannerRendered_guard_spec
    ({ installPrompt := none, showPrompt := true } : InstallState Nat) .accepted

/-! ## Lemmas: unique ids and list decompositions -/

theorem nodup_ids_split (l₁ l₂ : List Target) (t : Target)
    (h : ((l₁ ++ t :: l₂).map Target.id).Nodup) :
    (∀ x ∈ l₁, x.id ≠ t.id) ∧ (∀ x ∈ l₂, x.id ≠ t.id) := by
  rw [List.map_append, List.map_cons] at h
  constructor
  · intro x hx he
    exact List.disjoint_of_nodup_append h
      (List.mem_map_of_mem Target.id hx)
      (he ▸ List.mem_cons_self t.id _)
  · intro x hx he
    have hr := (List.Nodup.of_append_right h)
    rw [List.nodup_cons] at hr
    exact hr.1 (he ▸ List.mem_map_of_mem Target.id hx)

theorem find?_append_cons (l₁ l₂ : List Target) (t : Target) (p : Target → Bool)
    (h₁ : ∀ x ∈ l₁, p x = false) (ht : p t = true) :
    ((l₁ ++ t :: l₂).find? p) = some t := by
  induction l₁ with
  | nil => simp [List.find?_cons, ht]
  | cons a l₁ ih =>
    have ha := h₁ a (List.mem_cons_self a l₁)
    simp only [List.cons_append, List.find?_cons, ha]
    exact ih fun x hx => h₁ x (List.mem_cons_of_mem a hx)

/-! ## Claim C6: deleting a target -/

/-- C6. On a collection with unique ids: when no item matches the id,
`deleteTarget` leaves the state unchanged (it still emits its toast — with
the JavaScript `undefined` text — and still calls `setTargets`); when an
item `t` matches, the collection splits as `l₁ ++ t :: l₂` and the result
is exactly `l₁ ++ l₂` — the one matching item removed, the relative order
of the rest untouched — with the notification naming the removed item's
text. -/
theorem deleteTarget_spec (s : TrackerState) (id : String)
    (huniq : (s.targets.map Target.id).Nodup) :
    ((∀ t ∈ s.targets, t.id ≠ id) →
      deleteTarget id s =
        { state := s, toasts := [removedToast "undefined"], persisted := true }) ∧
    (∀ t ∈ s.targets, t.id = id →
      ∃ l₁ l₂, s.targets = l₁ ++ t :: l₂ ∧
        (deleteTarget id s).state.targets = l₁ ++ l₂ ∧
        (deleteTarget id s).state.newTarget = s.newTarget ∧
        (deleteTarget id s).toasts = [removedToast t.text]) := by
  constructor
  · intro habs
    have hfind : (s.targets.find? fun t => t.id = id) = none :=
      List.find?_eq_none.mpr fun x hx => by simpa using habs x hx
    have hfilt : (s.targets.filter fun t => t.id ≠ id) = s.targets :=
      List.filter_eq_self.mpr fun x hx => by simpa using habs x hx
    unfold deleteTarget
    rw [hfind, hfilt]
  · intro t hmem hid
    subst hid
    obtain ⟨l₁, l₂, hsplit⟩ := List.append_of_mem hmem
    rw [hsplit] at huniq
    obtain ⟨h₁, h₂⟩ := nodup_ids_split l₁ l₂ t huniq
    have hfind : (s.targets.find? fun x => x.id = t.id) = some t := by
      rw [hsplit]
      exact find?_append_cons l₁ l₂ t _ (fun x hx => by simpa using h₁ x hx)
        (by simp)
    have hfl₁ : (l₁.filter fun x => x.id ≠ t.id) = l₁ :=
      List.filter_eq_self.mpr fun x hx => by simpa using h₁ x hx
    have hfl₂ : (l₂.filter fun x => x.id ≠ t.id) = l₂ :=
      List.filter_eq_self.mpr fun x hx => by simpa using h₂ x hx
    have hfilt : (s.targets.filter fun x => x.id ≠ t.id) = l₁ ++ l₂ := by
      rw [hsplit, List.filter_append, List.filter_cons, hfl₁, hfl₂]
      simp
    refine ⟨l₁, l₂, hsplit, ?_, rfl, ?_⟩
    · exact hfilt
    · show [removedToast (match s.targets.find? fun x => x.id = t.id with
        | some u => u.text
        | none => "undefined")] = [removedToast t.text]
      rw [hfind]

/-- Witness for C6 at a concrete input, exercising the found branch. -/
theorem deleteTarget_spec_witness :
    ∃ l₁ l₂, twoTargetState.targets = l₁ ++
        { id := "2", text := "b", completed := true, createdAt := 1 } :: l₂ ∧
      (deleteTarget "2" twoTargetState).state.targets = l₁ ++ l₂ ∧
      (deleteTarget "2" twoTargetState).state.newTarget =
        twoTargetState.newTarget ∧
      (deleteTarget "2" twoTargetState).toasts = [removedToast "b"] :=
  (deleteTarget_spec twoTargetState "2" (by decide)).2
    { id := "2", text := "b", completed := true, createdAt := 1 }
    (by decide) rfl

/-! ## Claim C8: toggling a target -/

theorem map_toggle_no_match (l : List Target) (id : String)
    (h : ∀ x ∈ l, x.id ≠ id) :
    (l.map fun t =>
      if t.id = id then { t with completed := !t.completed } else t) = l := by
  induction l with
  | nil => rfl
  | cons a l ih =>
    have ha : ¬ a.id = id := h a (List.mem_cons_self a l)
    simp only [List.map_cons, if_neg ha, List.cons.injEq, true_and]
    exact ih fun x hx => h x (List.mem_cons_of_mem a hx)

/-- C8. On a collection with unique ids: toggling an absent id leaves the
state entirely unchanged (though `setTargets` still runs); toggling a
present id flips the `completed` flag of exactly the matching item `t` —
the collection splits as `l₁ ++ t :: l₂` and the result is
`l₁ ++ {t with completed flipped} :: l₂`, so every other item and every
other field of the toggled item are untouched and order is preserved. -/
theorem toggleTarget_spec (s : TrackerState) (id : String)
    (huniq : (s.targets.map Target.id).Nodup) :
    ((∀ t ∈ s.targets, t.id ≠ id) →
      toggleTarget id s = { state := s, toasts := [], persisted := true }) ∧
    (∀ t ∈ s.targets, t.id = id →
      ∃ l₁ l₂, s.targets = l₁ ++ t :: l₂ ∧
        (toggleTarget id s).state.targets =
          l₁ ++ { t with completed := !t.completed } :: l₂ ∧
        (toggleTarget id s).state.newTarget = s.newTarget ∧
        (toggleTarget id s).toasts = []) := by
  constructor
  · intro habs
    have hmap := map_toggle_no_match s.targets id habs
    simp [toggleTarget, hmap]
  · intro t hmem hid
    subst hid
    obtain ⟨l₁, l₂, hsplit⟩ := List.append_of_mem hmem
    rw [hsplit] at huniq
    obtain ⟨h₁, h₂⟩ := nodup_ids_split l₁ l₂ t huniq
    have hm₁ := map_toggle_no_match l₁ t.id h₁
    have hm₂ := map_toggle_no_match l₂ t.id h₂
    refine ⟨l₁, l₂, hsplit, ?_, rfl, rfl⟩
    simp [toggleTarget, hsplit, List.map_append, List.map_cons, hm₁, hm₂]

/-- Witness for C8 at a concrete input, exercising the found branch. -/
theorem toggleTarget_spec_witness :
    ∃ l₁ l₂, twoTargetState.targets = l₁ ++
        { id := "1", text := "a", completed := false, createdAt := 0 } :: l₂ ∧
      (toggleTarget "1" twoTargetState).state.targets = l₁ ++
        { id := "1", text := "a", completed := true, createdAt := 0 } :: l₂ ∧
      (toggleTarget "1" twoTargetState).state.newTarget =
        twoTargetState.newTarget ∧
      (toggleTarget "1" twoTargetState).toasts = [] :=
  (toggleTarget_spec twoTargetState "1" (by decide)).2
    { id := "1", text := "a", completed := false, createdAt := 0 }
    (by decide) rfl

/-! ## Claim C5: uniqueness of ids across reachable collections -/

/-- Counterexample to C5 as stated: two adds during the same millisecond
(`Date.now()` returning 5 both times) produce two distinct items carrying
the same id `"5"`, so a reachable collection violates id uniqueness. -/
theorem reachable_ids_collision_counterexample :
    ¬ (((runOps initState [.add 5 "a", .add 5 "b"]).targets.map
      Target.id).Nodup) := by
  decide

theorem ids_toggleTarget (id : String) (s : TrackerState) :
    (toggleTarget id s).state.targets.map Target.id =
      s.targets.map Target.id := by
  show (s.targets.map _).map Target.id = _
  rw [List.map_map]
  apply List.map_congr_left
  intro t _
  by_cases h : t.id = id <;> simp [Function.comp, h]

theorem sublist_ids_filter (p : Target → Bool) (l : List Target) :
    ((l.filter p).map Target.id).Sublist (l.map Target.id) :=
  (List.filter_sublist l).map Target.id

theorem ids_deleteTarget_sublist (id : String) (s : TrackerState) :
    ((deleteTarget id s).state.targets.map Target.id).Sublist
      (s.targets.map Target.id) :=
  sublist_ids_filter _ s.targets

theorem ids_clearCompleted_sublist (s : TrackerState) :
    ((clearCompleted s).state.targets.map Target.id).Sublist
      (s.targets.map Target.id) := by
  unfold clearCompleted
  by_cases hc : (s.targets.filter fun t => t.completed).length = 0
  · rw [if_pos hc]
  · rw [if_neg hc]
    exact sublist_ids_filter _ s.targets

theorem runOps_ids_nodup (ops : List Op) (s : TrackerState) (used : List Nat)
    (hsub : ∀ i ∈ s.targets.map Target.id, ∃ n ∈ used, i = natDecStr n)
    (hnodup : (s.targets.map Target.id).Nodup)
    (hfresh : ∀ n ∈ addNows ops, n ∉ used)
    (hops : (addNows ops).Nodup) :
    ((runOps s ops).targets.map Target.id).Nodup := by
  induction ops generalizing s used with
  | nil => exact hnodup
  | cons op ops ih =>
    cases op with
    | add now text =>
      have hfreshnow : now ∉ used := hfresh now (List.mem_cons_self now _)
      have hnow : now ∉ addNows ops := (List.nodup_cons.mp hops).1
      have hopsN : (addNows ops).Nodup := (List.nodup_cons.mp hops).2
      have hfresh' : ∀ n ∈ addNows ops, n ∉ (now :: used) := by
        intro n hn
        rw [List.mem_cons]
        rintro (rfl | hmem)
        · exact hnow hn
        · exact hfresh n (List.mem_cons_of_mem now hn) hmem
      by_cases ht : jsTrim text = ""
      · refine ih _ (now :: used) ?_ ?_ hfresh' hopsN
        · intro i hi
          obtain ⟨n, hn, he⟩ := hsub i (by simpa [applyOp, addTarget, ht] using hi)
          exact ⟨n, List.mem_cons_of_mem now hn, he⟩
        · simpa [applyOp, addTarget, ht] using hnodup
      · refine ih _ (now :: used) ?_ ?_ hfresh' hopsN
        · intro i hi
          rcases (by simpa [applyOp, addTarget, ht] using hi :
              i = natDecStr now ∨ i ∈ s.targets.map Target.id) with rfl | hmem
          · exact ⟨now, List.mem_cons_self now used, rfl⟩
          · obtain ⟨n, hn, he⟩ := hsub i hmem
            exact ⟨n, List.mem_cons_of_mem now hn, he⟩
        · have hnewid : natDecStr now ∉ s.targets.map Target.id := by
            intro hmem
            obtain ⟨n, hn, he⟩ := hsub _ hmem
            exact hfreshnow (natDecStr_injective he ▸ hn)
          have : ((applyOp s (.add now text)).targets.map Target.id) =
              natDecStr now :: s.targets.map Target.id := by
            simp [applyOp, addTarget, ht]
          rw [this, List.nodup_cons]
          exact ⟨hnewid, hnodup⟩
    | toggle id =>
      refine ih _ used ?_ ?_ hfresh hops
      · intro i hi
        exact hsub i (ids_toggleTarget id s ▸ hi)
      · exact (ids_toggleTarget id s).symm ▸ hnodup
    | delete id =>
      refine ih _ used ?_ ?_ hfresh hops
      · intro i hi
        exact hsub i ((ids_deleteTarget_sublist id s).subset hi)
      · exact (ids_deleteTarget_sublist id s).nodup hnodup
    | clear =>
      refine ih _ used ?_ ?_ hfresh hops
      · intro i hi
        exact hsub i ((ids_clearCompleted_sublist s).subset hi)
      · exact (ids_clearCompleted_sublist s).nodup hnodup

/-- C5 (amended). In every collection reachable from the empty initial
state by a sequence of add/toggle/delete/clearCompleted operations whose
add operations see pairwise distinct `Date.now()` readings, the id is
unique across all items. (As literally stated the claim fails: ids are
`Date.now().toString()`, so two adds within one millisecond collide — see
the counterexample.) -/
theorem reachable_ids_nodup (ops : List Op) (h : (addNows ops).Nodup) :
    ((runOps initState ops).targets.map Target.id).Nodup :=
  runOps_ids_nodup ops initState []
    (by intro i hi; simp [initState] at hi)
    (by simp [initState])
    (by intro n hn; exact List.not_mem_nil n)
    h

/-- Witness for C5 (amended) at a concrete operation sequence. -/
theorem reachable_ids_nodup_witness :
    ((runOps initState
      [.add 1 "a", .add 2 "b", .toggle "1", .delete "2", .clear]).targets.map
        Target.id).Nodup :=
  reachable_ids_nodup [.add 1 "a", .add 2 "b", .toggle "1", .delete "2", .clear]
    (by decide)

end Targetify
